import Mathlib

/-!
# Verification of `mail_deduplicate/deduplicate.py`

A shallow embedding of the duplicate-set resolution and orchestration engine
of the maildir-deduplicate repository (`mail_deduplicate/deduplicate.py`),
together with proofs settling the specification claims about it.

Modelling conventions:
* Python `int` thresholds become `Int` (they may be negative, which disables
  a check); counters become `Nat` record fields (they only ever increase).
* The `Counter` merge `self.stats += duplicates.stats` is field-wise addition
  (Python's `Counter.__iadd__` drops non-positive entries, which is
  observationally identical to field-wise `Nat` addition when reading
  counters, since missing keys read as `0`).
* Exceptions become `Except`/sum results; external collaborators (mailbox
  backend, hash computation, the selection strategy, the filesystem) become
  explicit function parameters or oracle fields.
* A Python `frozenset` pool is embedded as the `List` of its elements in
  iteration order; `dict`s (insertion ordered) become association lists.
-/

set_option autoImplicit false

/-- A mail, as seen by the engine.  `deduplicate.py` only reads the fields
below; `body_lines` is produced by external decoding which may fail with a
`UnicodeDecodeError`, embedded as the `none` case. -/
structure Mail where
  source_path : String
  mail_id : String
  size : Nat
  body_lines : Option (List String)
  deriving DecidableEq, Repr

/-- The `(source_path, mail_id)` identifier carried through the selection. -/
abbrev Uid := String × String

def Mail.uid (m : Mail) : Uid := (m.source_path, m.mail_id)

/-- The configuration fields of `Config` consumed by `deduplicate.py`.
`strategy` is `None` or a name string in Python; `if not self.conf.strategy`
is true exactly when it is `None` or empty. -/
structure Conf where
  size_threshold : Int
  content_threshold : Int
  strategy : Option String
  dry_run : Bool
  show_diff : Bool
  deriving DecidableEq, Repr

/-- Truthiness of `self.conf.strategy` in Python. -/
def Conf.hasStrategy (c : Conf) : Bool :=
  match c.strategy with
  | none => false
  | some s => !(s == "")

/-- The statistics `Counter` of `Deduplicate.__init__`, one field per key. -/
structure Stats where
  mail_found : Nat := 0
  mail_rejected : Nat := 0
  mail_retained : Nat := 0
  mail_unique : Nat := 0
  mail_duplicates : Nat := 0
  mail_discarded : Nat := 0
  mail_selected : Nat := 0
  mail_copied : Nat := 0
  mail_moved : Nat := 0
  mail_deleted : Nat := 0
  set_total : Nat := 0
  set_ignored : Nat := 0
  set_skipped : Nat := 0
  set_rejected_encoding : Nat := 0
  set_rejected_size : Nat := 0
  set_rejected_content : Nat := 0
  set_deduplicated : Nat := 0
  deriving DecidableEq, Repr

/-- The all-zero counter from `Deduplicate.__init__`. -/
def initStats : Stats := {}

/-- Field-wise merge, embedding `self.stats += duplicates.stats`. -/
def Stats.add (a b : Stats) : Stats where
  mail_found := a.mail_found + b.mail_found
  mail_rejected := a.mail_rejected + b.mail_rejected
  mail_retained := a.mail_retained + b.mail_retained
  mail_unique := a.mail_unique + b.mail_unique
  mail_duplicates := a.mail_duplicates + b.mail_duplicates
  mail_discarded := a.mail_discarded + b.mail_discarded
  mail_selected := a.mail_selected + b.mail_selected
  mail_copied := a.mail_copied + b.mail_copied
  mail_moved := a.mail_moved + b.mail_moved
  mail_deleted := a.mail_deleted + b.mail_deleted
  set_total := a.set_total + b.set_total
  set_ignored := a.set_ignored + b.set_ignored
  set_skipped := a.set_skipped + b.set_skipped
  set_rejected_encoding := a.set_rejected_encoding + b.set_rejected_encoding
  set_rejected_size := a.set_rejected_size + b.set_rejected_size
  set_rejected_content := a.set_rejected_content + b.set_rejected_content
  set_deduplicated := a.set_deduplicated + b.set_deduplicated

instance : Add Stats := ⟨Stats.add⟩

/-!
## Port of Python `difflib.unified_diff`

`DuplicateSet.diff` computes `len("".join(unified_diff(...)))`.  The
functions below are a faithful port of the CPython `difflib` code paths
exercised by `unified_diff(a, b, fromfile, tofile, fromfiledate, tofiledate,
n, lineterm)` with `isjunk=None` (so the junk set `bjunk` is always empty and
the junk-extension loops of `find_longest_match` never fire; they are elided
with that justification).  The `autojunk` "popular element" heuristic does
apply and is ported.
-/

/-- Port of `SequenceMatcher.__chain_b`: the list of indices of `s` in `b`
(ascending, as built by the enumeration loop), except that "popular"
elements (autojunk, only when `len(b) >= 200`) map to no indices. -/
def b2jGet (b : List String) (s : String) : List Nat :=
  if b.length ≥ 200 ∧ b.count s > b.length / 100 + 1 then []
  else (List.range b.length).filter fun j => b.get? j = some s

/-- One iteration (fixed `i`) of the `j2len` dynamic-programming loop of
`find_longest_match`.  The dict `j2len` is a total function defaulting to 0
(`j2len.get(j-1, 0)`); `newj2len` starts empty each iteration. -/
def flmInner (j2len : Nat → Nat) (i : Nat) (js : List Nat)
    (best : Nat × Nat × Nat) : (Nat → Nat) × Nat × Nat × Nat :=
  js.foldl
    (fun st j =>
      let (nj2l, bi, bj, bs) := st
      let k := (if j = 0 then 0 else j2len (j - 1)) + 1
      let nj2l' : Nat → Nat := fun x => if x = j then k else nj2l x
      if k > bs then (nj2l', i + 1 - k, j + 1 - k, k) else (nj2l', bi, bj, bs))
    ((fun _ => 0), best)

/-- The backward extension loop of `find_longest_match`
(`while besti > alo and bestj > blo and a[besti-1] == b[bestj-1]`), with the
junk test elided since `bjunk` is empty.  `fuel` bounds the recursion; it is
called with `fuel = besti`, which suffices since `besti` decreases. -/
def flmExtendLower (a b : List String) (alo blo : Nat) :
    Nat → Nat × Nat × Nat → Nat × Nat × Nat
  | 0, st => st
  | fuel + 1, (besti, bestj, bestsize) =>
    if alo < besti ∧ blo < bestj then
      match a.get? (besti - 1), b.get? (bestj - 1) with
      | some x, some y =>
        if x = y then
          flmExtendLower a b alo blo fuel (besti - 1, bestj - 1, bestsize + 1)
        else (besti, bestj, bestsize)
      | _, _ => (besti, bestj, bestsize)
    else (besti, bestj, bestsize)

/-- The forward extension loop of `find_longest_match`
(`while besti+bestsize < ahi and bestj+bestsize < bhi and
a[besti+bestsize] == b[bestj+bestsize]`), junk test elided likewise.
Called with `fuel = ahi`, sufficient since `besti + bestsize` increases. -/
def flmExtendUpper (a b : List String) (ahi bhi : Nat) :
    Nat → Nat × Nat × Nat → Nat × Nat × Nat
  | 0, st => st
  | fuel + 1, (besti, bestj, bestsize) =>
    if besti + bestsize < ahi ∧ bestj + bestsize < bhi then
      match a.get? (besti + bestsize), b.get? (bestj + bestsize) with
      | some x, some y =>
        if x = y then
          flmExtendUpper a b ahi bhi fuel (besti, bestj, bestsize + 1)
        else (besti, bestj, bestsize)
      | _, _ => (besti, bestj, bestsize)
    else (besti, bestj, bestsize)

/-- Port of `SequenceMatcher.find_longest_match(alo, ahi, blo, bhi)`.  The inner
`for j in b2j.get(a[i], [])` loop with its `continue`/`break` guards is the
filter below, since the index list is ascending. -/
def findLongestMatch (a b : List String) (alo ahi blo bhi : Nat) :
    Nat × Nat × Nat :=
  let step := fun (st : (Nat → Nat) × Nat × Nat × Nat) (i : Nat) =>
    let js := (b2jGet b (a.getD i "")).filter fun j => blo ≤ j ∧ j < bhi
    flmInner st.1 i js st.2
  let res := (List.range' alo (ahi - alo)).foldl step ((fun _ => 0), alo, blo, 0)
  let st := flmExtendLower a b alo blo res.2.1 res.2
  flmExtendUpper a b ahi bhi ahi st

/-- Lexicographic order on matching blocks, for `matching_blocks.sort()`. -/
def blockLe (x y : Nat × Nat × Nat) : Bool :=
  decide (x.1 < y.1 ∨ (x.1 = y.1 ∧
    (x.2.1 < y.2.1 ∨ (x.2.1 = y.2.1 ∧ x.2.2 ≤ y.2.2))))

def insertBlock (x : Nat × Nat × Nat) :
    List (Nat × Nat × Nat) → List (Nat × Nat × Nat)
  | [] => [x]
  | y :: ys => if blockLe x y then x :: y :: ys else y :: insertBlock x ys

/-- Insertion sort standing in for `list.sort()` (the produced blocks are
pairwise distinct, so any correct ascending sort agrees with Python's). -/
def sortBlocks : List (Nat × Nat × Nat) → List (Nat × Nat × Nat)
  | [] => []
  | x :: xs => insertBlock x (sortBlocks xs)

/-- The queue-driven divide loop of `get_matching_blocks`.  Python pushes the
left then the right sub-range and pops from the end (LIFO); the head of the
list plays the role of the end of Python's queue.  `fuel` bounds the loop;
`2 * a.length + 2` pops suffice because each collected block consumes at
least one distinct index of `a` and only productive pops push. -/
def gmbLoop (a b : List String) :
    Nat → List (Nat × Nat × Nat × Nat) → List (Nat × Nat × Nat) →
    List (Nat × Nat × Nat)
  | _, [], acc => acc
  | 0, _, acc => acc
  | fuel + 1, (alo, ahi, blo, bhi) :: rest, acc =>
    let (i, j, k) := findLongestMatch a b alo ahi blo bhi
    if k ≠ 0 then
      let lo := if alo < i ∧ blo < j then [(alo, i, blo, j)] else []
      let hi := if i + k < ahi ∧ j + k < bhi then [(i + k, ahi, j + k, bhi)] else []
      gmbLoop a b fuel (hi ++ lo ++ rest) ((i, j, k) :: acc)
    else gmbLoop a b fuel rest acc

/-- The adjacent-block merging pass at the end of `get_matching_blocks`. -/
def mergeAdjacent : Nat × Nat × Nat → List (Nat × Nat × Nat) →
    List (Nat × Nat × Nat)
  | (i1, j1, k1), [] => if k1 ≠ 0 then [(i1, j1, k1)] else []
  | (i1, j1, k1), (i2, j2, k2) :: rest =>
    if i1 + k1 = i2 ∧ j1 + k1 = j2 then mergeAdjacent (i1, j1, k1 + k2) rest
    else if k1 ≠ 0 then (i1, j1, k1) :: mergeAdjacent (i2, j2, k2) rest
    else mergeAdjacent (i2, j2, k2) rest

/-- Port of `SequenceMatcher.get_matching_blocks()` (sorted, merged, with the
terminating `(la, lb, 0)` sentinel). -/
def getMatchingBlocks (a b : List String) : List (Nat × Nat × Nat) :=
  let blocks := gmbLoop a b (2 * a.length + 2) [(0, a.length, 0, b.length)] []
  mergeAdjacent (0, 0, 0) (sortBlocks blocks) ++ [(a.length, b.length, 0)]

inductive Tag where
  | replace
  | delete
  | insert
  | equal
  deriving DecidableEq, Repr

abbrev Opcode := Tag × Nat × Nat × Nat × Nat

/-- Port of `SequenceMatcher.get_opcodes()`. -/
def getOpcodes (a b : List String) : List Opcode :=
  let step := fun (st : List Opcode × Nat × Nat) (blk : Nat × Nat × Nat) =>
    let (acc, i, j) := st
    let (ai, bj, size) := blk
    let acc :=
      if i < ai ∧ j < bj then acc ++ [(Tag.replace, i, ai, j, bj)]
      else if i < ai then acc ++ [(Tag.delete, i, ai, j, bj)]
      else if j < bj then acc ++ [(Tag.insert, i, ai, j, bj)]
      else acc
    let acc :=
      if size ≠ 0 then acc ++ [(Tag.equal, ai, ai + size, bj, bj + size)]
      else acc
    (acc, ai + size, bj + size)
  ((getMatchingBlocks a b).foldl step ([], 0, 0)).1

/-- The grouping loop of `get_grouped_opcodes(n)` over the (end-adjusted)
opcode list, carrying the current group. -/
def groupLoop (n : Nat) : List Opcode → List Opcode → List (List Opcode)
  | [], group =>
    if group ≠ [] ∧ ¬(group.length = 1 ∧ (group.headD (Tag.equal, 0, 0, 0, 0)).1 = Tag.equal)
    then [group] else []
  | (tag, i1, i2, j1, j2) :: rest, group =>
    if tag = Tag.equal ∧ i2 - i1 > n + n then
      (group ++ [(tag, i1, min i2 (i1 + n), j1, min j2 (j1 + n))]) ::
        groupLoop n rest [(tag, max i1 (i2 - n), i2, max j1 (j2 - n), j2)]
    else groupLoop n rest (group ++ [(tag, i1, i2, j1, j2)])

/-- Port of `SequenceMatcher.get_grouped_opcodes(n)`. -/
def getGroupedOpcodes (a b : List String) (n : Nat) : List (List Opcode) :=
  let codes := getOpcodes a b
  let codes := if codes.isEmpty then [(Tag.equal, 0, 1, 0, 1)] else codes
  -- Clip the leading `equal` opcode to at most `n` lines of context.
  let codes :=
    match codes with
    | (Tag.equal, i1, i2, j1, j2) :: rest =>
      (Tag.equal, max i1 (i2 - n), i2, max j1 (j2 - n), j2) :: rest
    | cs => cs
  -- Clip the trailing `equal` opcode likewise.
  let codes :=
    match codes.getLast? with
    | some (Tag.equal, i1, i2, j1, j2) =>
      codes.dropLast ++ [(Tag.equal, i1, min i2 (i1 + n), j1, min j2 (j1 + n))]
    | _ => codes
  groupLoop n codes []

/-- Port of `difflib._format_range_unified(start, stop)`. -/
def formatRangeUnified (start stop : Nat) : String :=
  let beginning := start + 1
  let length := stop - start
  if length = 1 then Nat.repr beginning
  else Nat.repr (if length = 0 then beginning - 1 else beginning) ++ "," ++
    Nat.repr length

/-- Python list slicing `l[i:j]` (with `0 ≤ i ≤ j` as used by difflib). -/
def pySlice {α : Type} (l : List α) (i j : Nat) : List α :=
  (l.drop i).take (j - i)

/-- The lines emitted for one opcode inside a group (`' '`, `'-'`, `'+'`
prefixed source/target lines). -/
def opcodeLines (a b : List String) (op : Opcode) : List String :=
  let (tag, i1, i2, j1, j2) := op
  match tag with
  | Tag.equal => (pySlice a i1 i2).map (fun line => " " ++ line)
  | Tag.replace =>
    (pySlice a i1 i2).map (fun line => "-" ++ line) ++
      (pySlice b j1 j2).map (fun line => "+" ++ line)
  | Tag.delete => (pySlice a i1 i2).map (fun line => "-" ++ line)
  | Tag.insert => (pySlice b j1 j2).map (fun line => "+" ++ line)

/-- The lines emitted for one group by the body of `unified_diff`. -/
def groupLines (a b : List String) (lineterm : String) (group : List Opcode) :
    List String :=
  let first := group.headD (Tag.equal, 0, 0, 0, 0)
  let last := group.getLastD (Tag.equal, 0, 0, 0, 0)
  let file1Range := formatRangeUnified first.2.1 last.2.2.1
  let file2Range := formatRangeUnified first.2.2.2.1 last.2.2.2.2
  ("@@ -" ++ file1Range ++ " +" ++ file2Range ++ " @@" ++ lineterm) ::
    group.foldr (fun (op : Opcode) acc => opcodeLines a b op ++ acc) []

/-- Port of `difflib.unified_diff(a, b, fromfile, tofile, fromfiledate, tofiledate,
n, lineterm)`: the list of yielded strings.  The `---`/`+++` headers are
emitted once before the first group (the `started` flag). -/
def unifiedDiff (a b : List String)
    (fromfile tofile fromfiledate tofiledate : String) (n : Nat)
    (lineterm : String) : List String :=
  match getGroupedOpcodes a b n with
  | [] => []
  | groups =>
    let fromdate := if fromfiledate ≠ "" then "\t" ++ fromfiledate else ""
    let todate := if tofiledate ≠ "" then "\t" ++ tofiledate else ""
    ("--- " ++ fromfile ++ fromdate ++ lineterm) ::
      ("+++ " ++ tofile ++ todate ++ lineterm) ::
      (groups.map (groupLines a b lineterm)).flatten

/-- Embeds `DuplicateSet.diff(mail_a, mail_b)`: `len` (in characters — Python `len`
on `str` counts code points) of the joined zero-context unified diff of the
two normalized bodies.  Accessing `body_lines` may raise
`UnicodeDecodeError`, which propagates. -/
def DuplicateSet.diff (mail_a mail_b : Mail) : Option Nat := do
  let la ← mail_a.body_lines
  let lb ← mail_b.body_lines
  pure (String.join (unifiedDiff la lb "a" "b" "" "" 0 "\n")).length

/-!
## `DuplicateSet.check_differences`

The loop `for mail_a, mail_b in combinations(self.pool, 2)` raises
`SizeDiffAboveThreshold` / `ContentDiffAboveThreshold` on the first
violating comparison; accessing a body inside `diff` may raise
`UnicodeDecodeError`.  The embedding returns the outcome together with the
ordered list of comparisons actually performed, so that claims about which
comparisons happen (and in which order) are statable.
-/

inductive CheckErr where
  | unicodeDecodeError
  | sizeDiffAboveThreshold
  | contentDiffAboveThreshold
  deriving DecidableEq, Repr

/-- A comparison performed by `check_differences`: a size comparison or a
content comparison of an (ordered) pair of mails. -/
inductive Cmp where
  | sizeCmp (mail_a mail_b : Mail)
  | contentCmp (mail_a mail_b : Mail)
  deriving DecidableEq, Repr

/-- Embeds `abs(mail_a.size - mail_b.size)`. -/
def sizeDifference (mail_a mail_b : Mail) : Nat :=
  ((mail_a.size : Int) - (mail_b.size : Int)).natAbs

/-- The body of the `for mail_a, mail_b in combinations(...)` loop for one
pair: the error raised (if any) and the comparisons performed. -/
def checkOnePair (conf : Conf) (mail_a mail_b : Mail) :
    Option CheckErr × List Cmp :=
  let (szErr, szCmps) :=
    if conf.size_threshold > -1 then
      ((if (sizeDifference mail_a mail_b : Int) > conf.size_threshold
        then some CheckErr.sizeDiffAboveThreshold else none),
       [Cmp.sizeCmp mail_a mail_b])
    else (none, [])
  match szErr with
  | some e => (some e, szCmps)
  | none =>
    if conf.content_threshold > -1 then
      match DuplicateSet.diff mail_a mail_b with
      | none => (some CheckErr.unicodeDecodeError,
                 szCmps ++ [Cmp.contentCmp mail_a mail_b])
      | some d =>
        if (d : Int) > conf.content_threshold then
          (some CheckErr.contentDiffAboveThreshold,
           szCmps ++ [Cmp.contentCmp mail_a mail_b])
        else (none, szCmps ++ [Cmp.contentCmp mail_a mail_b])
    else (none, szCmps)

/-- The comparison loop over the pairs; a raise aborts the remaining
pairs. -/
def checkLoop (conf : Conf) :
    List (Mail × Mail) → Option CheckErr × List Cmp
  | [] => (none, [])
  | (mail_a, mail_b) :: rest =>
    match checkOnePair conf mail_a mail_b with
    | (some e, cmps) => (some e, cmps)
    | (none, cmps) =>
      let (r, t) := checkLoop conf rest
      (r, cmps ++ t)

/-- Embeds `DuplicateSet.check_differences` over an explicit pair list (the caller
passes `combinations2 pool`).  `none` means the check passed. -/
def check_differences (conf : Conf) (pairs : List (Mail × Mail)) :
    Option CheckErr × List Cmp :=
  if conf.size_threshold < 0 ∧ conf.content_threshold < 0 then (none, [])
  else checkLoop conf pairs

/-- Embeds `itertools.combinations(pool, 2)` in pool order. -/
def combinations2 {α : Type} : List α → List (α × α)
  | [] => []
  | x :: xs => (xs.map fun y => (x, y)) ++ combinations2 xs

/-!
Specification-side description of the comparison process, used to state
claim C8: the sequence of comparisons the spec prescribes (size before
content for each pair, each gated by its threshold) and the first-violation
rule.
-/

/-- The comparisons the spec prescribes for one pair: the size comparison
when the size threshold is active, then the content comparison when the
content threshold is active. -/
def pairCmps (conf : Conf) (p : Mail × Mail) : List Cmp :=
  (if conf.size_threshold > -1 then [Cmp.sizeCmp p.1 p.2] else []) ++
    (if conf.content_threshold > -1 then [Cmp.contentCmp p.1 p.2] else [])

/-- All prescribed comparisons over a pair list, in order. -/
def allCmps (conf : Conf) (pairs : List (Mail × Mail)) : List Cmp :=
  (pairs.map (pairCmps conf)).flatten

/-- The violation (if any) of a single comparison. -/
def cmpViolation (conf : Conf) : Cmp → Option CheckErr
  | Cmp.sizeCmp a b =>
    if (sizeDifference a b : Int) > conf.size_threshold
    then some CheckErr.sizeDiffAboveThreshold else none
  | Cmp.contentCmp a b =>
    match DuplicateSet.diff a b with
    | none => some CheckErr.unicodeDecodeError
    | some d =>
      if (d : Int) > conf.content_threshold
      then some CheckErr.contentDiffAboveThreshold else none

/-- The first violating comparison determines the outcome. -/
def firstViolation (conf : Conf) : List Cmp → Option CheckErr
  | [] => none
  | c :: rest =>
    match cmpViolation conf c with
    | some e => some e
    | none => firstViolation conf rest

/-!
## `DuplicateSet.select_candidates`

The strategy (`apply_strategy(self.conf.strategy, self)`) is an external
collaborator and is passed in as a function from the pool to the list of
selected `(source_path, mail_id)` identifiers.  The result is the local
statistics delta of the set and the Python return value (`none` embeds
Python's bare `return`/`return None`).
-/

def select_candidates (conf : Conf) (strat : List Mail → List Uid)
    (pool : List Mail) : Stats × Option (List Uid) :=
  let size := pool.length
  if size = 1 then
    ({ mail_unique := size, mail_discarded := size, set_ignored := 1 }, none)
  else
    let base : Stats := { mail_duplicates := size }
    match (check_differences conf (combinations2 pool)).1 with
    | some CheckErr.unicodeDecodeError =>
      (base + { mail_discarded := size, set_rejected_encoding := 1 }, none)
    | some CheckErr.sizeDiffAboveThreshold =>
      (base + { mail_discarded := size, set_rejected_size := 1 }, none)
    | some CheckErr.contentDiffAboveThreshold =>
      (base + { mail_discarded := size, set_rejected_content := 1 }, none)
    | none =>
      if !conf.hasStrategy then
        (base + { mail_discarded := size, set_skipped := 1 }, none)
      else
        let selected_uids := strat pool
        let candidate_count := selected_uids.length
        if candidate_count = size then
          (base + { mail_discarded := candidate_count, set_skipped := 1 }, none)
        else
          (base + { mail_selected := candidate_count,
                    mail_discarded := size - candidate_count,
                    set_deduplicated := 1 }, some selected_uids)

/-!
## `Deduplicate.hash_all` and `Deduplicate.select_all`
-/

/-- Embeds `self.mails.setdefault(mail_hash, set()).add(mail)` on an
insertion-ordered association list of hash buckets; the bucket set is the
list of its members in insertion order, and adding an already-present mail
is a no-op (set semantics). -/
def addToBucket : List (String × List Mail) → String → Mail →
    List (String × List Mail)
  | [], h, m => [(h, [m])]
  | (k, ms) :: rest, h, m =>
    if k = h then (k, if m ∈ ms then ms else ms ++ [m]) :: rest
    else (k, ms) :: addToBucket rest h m

/-- Embeds `Deduplicate.hash_all`: the mail stream is the concatenation of all
sources' mails in visitation order, paired with the externally computed
hash key (`none` embeds a `TooFewHeaders` raise). -/
def hash_all (stream : List (Mail × Option String)) (st : Stats)
    (buckets : List (String × List Mail)) :
    Stats × List (String × List Mail) :=
  stream.foldl
    (fun acc entry =>
      let (st, bks) := acc
      match entry.2 with
      | none => ({ st with mail_rejected := st.mail_rejected + 1 }, bks)
      | some h =>
        ({ st with mail_retained := st.mail_retained + 1 },
         addToBucket bks h entry.1))
    (st, buckets)

/-- Embeds `if candidates: self.selection += candidates` — Python truthiness: a
`None` return and an empty list both leave the selection unchanged. -/
def appendCandidates (sel : List Uid) : Option (List Uid) → List Uid
  | none => sel
  | some l => if l.isEmpty then sel else sel ++ l

/-- One iteration of the `for hash_key, mail_set in self.mails.items()` loop
of `select_all`: select within the set, extend the selection, merge the
set's statistics. -/
def selectStep (conf : Conf) (strat : List Mail → List Uid)
    (acc : Stats × List Uid) (bucket : String × List Mail) :
    Stats × List Uid :=
  let (delta, candidates) := select_candidates conf strat bucket.2
  (acc.1 + delta, appendCandidates acc.2 candidates)

/-- Embeds `Deduplicate.select_all`: records `set_total`, then folds every hash
bucket through `select_candidates`, accumulating the selection and merging
each set's statistics.  (Closing the boxes is an external side effect with
no bearing on the state modelled here.) -/
def select_all (conf : Conf) (strat : List Mail → List Uid)
    (buckets : List (String × List Mail)) (st : Stats) (sel : List Uid) :
    Stats × List Uid :=
  buckets.foldl (selectStep conf strat) ({ st with set_total := buckets.length }, sel)

/-!
## `Deduplicate.remove_selection`
-/

/-- Embeds `boltons.iterutils.unique`: order-preserving, first occurrence kept. -/
def uniqueKeepFirst (l : List Uid) : List Uid :=
  go [] l
where
  go (seen : List Uid) : List Uid → List Uid
    | [] => []
    | x :: xs => if x ∈ seen then go seen xs else x :: go (x :: seen) xs

/-- Result of `remove_selection`: normal completion, the opening
`assert unique(self.selection) == self.selection` failing, or a store-level
removal raising (which aborts the remaining batch).  Alongside the final
statistics, the list of removals actually performed on the sources is
recorded (empty for a dry run). -/
inductive RemoveResult where
  | ok (st : Stats) (performed : List Uid)
  | assertionError
  | removeError (st : Stats) (performed : List Uid)
  deriving DecidableEq, Repr

/-- The `for box_path, mail_id in self.selection` loop.  `removeOk` is the
external store-removal oracle: `false` means
`self.sources[box_path].remove(mail_id)` raises. -/
def removeLoop (removeOk : Uid → Bool) (dry : Bool) :
    List Uid → Stats → List Uid → RemoveResult
  | [], st, perf => RemoveResult.ok st perf
  | u :: rest, st, perf =>
    let st := { st with mail_deleted := st.mail_deleted + 1 }
    if dry then removeLoop removeOk dry rest st perf
    else if removeOk u then removeLoop removeOk dry rest st (perf ++ [u])
    else RemoveResult.removeError st perf

def remove_selection (removeOk : Uid → Bool) (conf : Conf) (st : Stats)
    (sel : List Uid) : RemoveResult :=
  if uniqueKeepFirst sel ≠ sel then RemoveResult.assertionError
  else removeLoop removeOk conf.dry_run sel st []

/-!
## `Deduplicate.add_source`
-/

/-- An opened mailbox handle; only its mail count and contents are read. -/
structure Box where
  mails : List (String × Mail)
  deriving DecidableEq, Repr

/-- The exceptions `add_source` can produce.  The code raises a plain
`ValueError` for an already-registered path; `fileNotFoundError` embeds the
raise from `Path.resolve(strict=True)` on a missing path, and `boxOpenError`
the raise from `open_box` on an unopenable store.  `duplicateSourceError` is
the error class the specification names; it exists in the model only so the
spec's statement is expressible — no code path produces it. -/
inductive PyErr where
  | valueError (msg : String)
  | fileNotFoundError
  | boxOpenError
  | duplicateSourceError
  deriving DecidableEq, Repr

/-- The filesystem / mailbox-backend oracle.
`resolve` embeds `Path(source_path).resolve(strict=True)` (`none`: the path
does not exist, the call raises).
`openBox` — Modelled from the spec: `open_box` lives in
`mail_deduplicate/mailbox.py`, which is not part of the provided source;
per the spec it "fails if the path ... cannot be opened as a mail store"
(`none`) and otherwise returns the opened handle. -/
structure FSOracle where
  resolve : String → Option String
  openBox : String → Option Box

/-- The `Deduplicate` instance state touched by `add_source`. -/
structure Dedup where
  sources : List (String × Box)
  stats : Stats
  deriving DecidableEq, Repr

def add_source (fs : FSOracle) (d : Dedup) (source_path : String) :
    Except PyErr Dedup :=
  match fs.resolve source_path with
  | none => Except.error PyErr.fileNotFoundError
  | some rp =>
    if (d.sources.map Prod.fst).contains rp then
      Except.error (PyErr.valueError (rp ++ " already added."))
    else
      match fs.openBox rp with
      | none => Except.error PyErr.boxOpenError
      | some box =>
        let mail_found := box.mails.length
        Except.ok { d with
          sources := d.sources ++ [(rp, box)],
          stats := { d.stats with
            mail_found := d.stats.mail_found + mail_found } }

/-!
## Whole-pipeline composition (for the run-level invariant claims)
-/

/-- The statistics after a complete run: grouping (`hash_all` from the
freshly initialised state), selection (`select_all`), and, when
`doRemoval` is set, a removal pass that runs to completion (`none` embeds a
run aborted by the assert or by a store-level removal failure — not a
complete run). -/
def pipelineStats (conf : Conf) (strat : List Mail → List Uid)
    (removeOk : Uid → Bool) (stream : List (Mail × Option String))
    (doRemoval : Bool) : Option Stats :=
  let (st1, buckets) := hash_all stream initStats []
  let (st2, sel) := select_all conf strat buckets st1 []
  if doRemoval then
    match remove_selection removeOk conf st2 sel with
    | RemoveResult.ok st3 _ => some st3
    | _ => none
  else some st2

/-- The retained mails of a hash stream (those whose hash computes). -/
def retainedMails (stream : List (Mail × Option String)) : List Mail :=
  stream.filterMap fun e => match e.2 with | some _ => some e.1 | none => none

/-- Total number of mails held across a bucket list. -/
def totalBucketSize (bks : List (String × List Mail)) : Nat :=
  (bks.map fun p => p.2.length).sum

/-- All mails held in some bucket. -/
def bucketMails (bks : List (String × List Mail)) : List Mail :=
  (bks.map Prod.snd).flatten

/-!
## Specification-side byte length (for claim C9)

Modelled from the spec: the "byte length" of a piece of text is the length
of its UTF-8 encoding, `utf8Size` bytes per code point.
-/

def charUtf8Size (c : Char) : Nat :=
  if c.toNat < 0x80 then 1
  else if c.toNat < 0x800 then 2
  else if c.toNat < 0x10000 then 3
  else 4

def byteLength (s : String) : Nat :=
  (s.data.map charUtf8Size).sum

/-- Modelled from the spec: "the byte length of a minimal (zero-context)
line-level unified diff between the two mails' normalized bodies" — the
unified diff of the claim, measured in bytes. -/
def specContentMagnitude (la lb : List String) : Nat :=
  byteLength (String.join (unifiedDiff la lb "a" "b" "" "" 0 "\n"))

/-- A string all of whose characters are ASCII. -/
def asciiString (s : String) : Prop :=
  ∀ c ∈ s.data, c.toNat < 0x80

instance (s : String) : Decidable (asciiString s) := by
  unfold asciiString; infer_instance

/-!
## Helper lemmas on `Stats`
-/

theorem Stats.add_eq (a b : Stats) : a + b = Stats.add a b := rfl

/-!
## Concrete fixtures (used by witnesses and counterexamples)
-/

def confBase : Conf :=
  { size_threshold := -1, content_threshold := -1, strategy := some "time",
    dry_run := false, show_diff := false }

def mailOne : Mail :=
  { source_path := "box1", mail_id := "1", size := 120,
    body_lines := some ["Hello\n"] }

def mailTwo : Mail :=
  { source_path := "box2", mail_id := "7", size := 120,
    body_lines := some ["Hello\n"] }

def mailThree : Mail :=
  { source_path := "box1", mail_id := "3", size := 120,
    body_lines := some ["Hello\n"] }

/-!
## Claim C3
-/

/-- C3 (counterexample): on a duplicate set of size 1, the statistics delta
of `select_candidates` is NOT limited to `mail_unique` and `set_ignored`:
the code also increments `mail_discarded` (line 174 of `deduplicate.py`), so
the delta claimed by the spec sentence ("Ignored → `mail_unique += size`",
with `mail_discarded` untouched) is wrong at this concrete input. -/
theorem C3_counterexample :
    (select_candidates confBase (fun _ => []) [mailOne]).1.mail_discarded = 1 ∧
    (select_candidates confBase (fun _ => []) [mailOne]).1 ≠
      { mail_unique := 1, set_ignored := 1 } := by
  constructor
  · rfl
  · decide

/-- C3 (amended): a duplicate set of size 1 always produces the Ignored
outcome with delta exactly `mail_unique += 1`, `mail_discarded += 1` and
`set_ignored += 1` — every other counter unchanged — and returns no
candidates (never rejected, skipped or deduplicated). -/
theorem C3_amended_size_one_ignored (conf : Conf)
    (strat : List Mail → List Uid) (m : Mail) :
    select_candidates conf strat [m] =
      ({ mail_unique := 1, mail_discarded := 1, set_ignored := 1 }, none) := rfl

/-!
## Claim C2
-/

/-- C2: for a duplicate set that passes the difference checks with a
configured strategy, if the strategy selects as many candidates as the set
holds mails, the set is skipped: `set_skipped` rises by one, neither
`mail_selected` nor `set_deduplicated` moves, and no candidates are
returned, so the set contributes nothing to the removal selection. -/
theorem C2_full_selection_skipped (conf : Conf) (strat : List Mail → List Uid)
    (pool : List Mail) (hsize : pool.length ≠ 1)
    (hchk : (check_differences conf (combinations2 pool)).1 = none)
    (hstrat : conf.hasStrategy = true)
    (hall : (strat pool).length = pool.length) :
    select_candidates conf strat pool =
      ({ mail_duplicates := pool.length, mail_discarded := pool.length,
         set_skipped := 1 }, none) := by
  unfold select_candidates
  rw [if_neg hsize, hchk]
  simp only [hstrat, Bool.not_true, Bool.false_eq_true, if_false, if_pos hall]
  rw [hall]
  simp [Stats.add_eq, Stats.add]

/-- C2 witness: a concrete 2-mail set whose strategy returns both mails. -/
theorem C2_full_selection_skipped_witness :
    select_candidates confBase (fun pool => pool.map Mail.uid)
        [mailOne, mailTwo] =
      ({ mail_duplicates := 2, mail_discarded := 2, set_skipped := 1 },
       none) :=
  C2_full_selection_skipped confBase (fun pool => pool.map Mail.uid)
    [mailOne, mailTwo] (by decide) (by decide) (by decide) (by decide)

/-!
## Claim C10
-/

/-- C10: a duplicate set of size ≥ 2 that passes the difference checks with
a configured strategy returning no candidates is counted as Deduplicated
(`set_deduplicated += 1`, `mail_discarded += size`, `mail_selected`
unchanged at 0), and the empty candidate list is falsy in
`if candidates:`, so the global selection is left unchanged by the set. -/
theorem C10_empty_strategy_deduplicated (conf : Conf)
    (strat : List Mail → List Uid) (pool : List Mail)
    (hsize : 2 ≤ pool.length)
    (hchk : (check_differences conf (combinations2 pool)).1 = none)
    (hstrat : conf.hasStrategy = true)
    (hempty : strat pool = []) :
    select_candidates conf strat pool =
      ({ mail_duplicates := pool.length, mail_discarded := pool.length,
         set_deduplicated := 1 }, some []) ∧
    ∀ sel : List Uid,
      appendCandidates sel (select_candidates conf strat pool).2 = sel := by
  have hne : pool.length ≠ 1 := by omega
  have h0 : ¬((0 : Nat) = pool.length) := by omega
  have heq : select_candidates conf strat pool =
      ({ mail_duplicates := pool.length, mail_discarded := pool.length,
         set_deduplicated := 1 }, some []) := by
    unfold select_candidates
    rw [if_neg hne, hchk]
    simp only [hstrat, Bool.not_true, Bool.false_eq_true, if_false, hempty,
      List.length_nil, List.isEmpty_nil, if_neg h0]
    simp [Stats.add_eq, Stats.add]
  refine ⟨heq, fun sel => ?_⟩
  rw [heq]
  rfl

/-- C10 witness: a concrete 2-mail set whose strategy returns nothing. -/
theorem C10_empty_strategy_deduplicated_witness :
    select_candidates confBase (fun _ => []) [mailOne, mailTwo] =
      ({ mail_duplicates := 2, mail_discarded := 2, set_deduplicated := 1 },
       some []) ∧
    appendCandidates [("box9", "9")]
        (select_candidates confBase (fun _ => []) [mailOne, mailTwo]).2 =
      [("box9", "9")] :=
  ⟨(C10_empty_strategy_deduplicated confBase (fun _ => []) [mailOne, mailTwo]
      (by decide) (by decide) (by decide) (by decide)).1,
   (C10_empty_strategy_deduplicated confBase (fun _ => []) [mailOne, mailTwo]
      (by decide) (by decide) (by decide) (by decide)).2 [("box9", "9")]⟩

/-!
## Claim C1
-/

theorem Stats.deleted_congr (st : Stats) {a b : Nat} (h : a = b) :
    ({ st with mail_deleted := a } : Stats) =
      { st with mail_deleted := b } := by rw [h]

/-- Dry-run behaviour of the removal loop: every pair still increments
`mail_deleted`, and no removal is performed. -/
theorem removeLoop_dry (removeOk : Uid → Bool) (l : List Uid) :
    ∀ (st : Stats) (perf : List Uid),
      removeLoop removeOk true l st perf =
        RemoveResult.ok { st with mail_deleted := st.mail_deleted + l.length }
          perf := by
  induction l with
  | nil => intro st perf; rfl
  | cons u rest ih =>
    intro st perf
    show removeLoop removeOk true rest
        { st with mail_deleted := st.mail_deleted + 1 } perf = _
    rw [ih]
    exact congrArg (RemoveResult.ok · perf)
      (Stats.deleted_congr _ (by simp; omega))

/-- When no removal fails, every pair increments `mail_deleted` and is
removed, in order. -/
theorem removeLoop_allOk (removeOk : Uid → Bool) (l : List Uid) :
    ∀ (st : Stats) (perf : List Uid), (∀ u ∈ l, removeOk u = true) →
      removeLoop removeOk false l st perf =
        RemoveResult.ok { st with mail_deleted := st.mail_deleted + l.length }
          (perf ++ l) := by
  induction l with
  | nil => intro st perf _; simp [removeLoop]
  | cons u rest ih =>
    intro st perf h
    have hu : removeOk u = true := h u (by simp)
    have step : removeLoop removeOk false (u :: rest) st perf =
        removeLoop removeOk false rest
          { st with mail_deleted := st.mail_deleted + 1 } (perf ++ [u]) := by
      simp [removeLoop, hu]
    rw [step, ih _ _ (fun v hv => h v (List.mem_cons_of_mem u hv))]
    have hp : perf ++ [u] ++ rest = perf ++ u :: rest := by simp
    rw [hp]
    exact congrArg (RemoveResult.ok · (perf ++ u :: rest))
      (Stats.deleted_congr _ (by simp; omega))

/-- A failing removal aborts the loop: the completed removals are the ones
before it, and `mail_deleted` also counts the failed attempt. -/
theorem removeLoop_fail (removeOk : Uid → Bool) (good : List Uid) :
    ∀ (st : Stats) (perf : List Uid) (u : Uid) (rest : List Uid),
      (∀ v ∈ good, removeOk v = true) → removeOk u = false →
      removeLoop removeOk false (good ++ u :: rest) st perf =
        RemoveResult.removeError
          { st with mail_deleted := st.mail_deleted + good.length + 1 }
          (perf ++ good) := by
  induction good with
  | nil =>
    intro st perf u rest _ hu
    have step : removeLoop removeOk false (([] : List Uid) ++ u :: rest) st perf =
        RemoveResult.removeError
          { st with mail_deleted := st.mail_deleted + 1 } perf := by
      simp [removeLoop, hu]
    rw [step]
    simp
  | cons v good ih =>
    intro st perf u rest h hu
    have hv : removeOk v = true := h v (by simp)
    have step : removeLoop removeOk false ((v :: good) ++ u :: rest) st perf =
        removeLoop removeOk false (good ++ u :: rest)
          { st with mail_deleted := st.mail_deleted + 1 } (perf ++ [v]) := by
      simp [removeLoop, hv]
    rw [step, ih _ _ u rest (fun w hw => h w (List.mem_cons_of_mem v hw)) hu]
    have hp : perf ++ [v] ++ good = perf ++ v :: good := by simp
    rw [hp]
    exact congrArg (RemoveResult.removeError · (perf ++ v :: good))
      (Stats.deleted_congr _ (by simp; omega))

/-- C1 (counterexample): with dry-run active and one selected pair, the code
still increments `mail_deleted` (the increment on line 392 of
`deduplicate.py` precedes the dry-run test), while no removal is performed
— so `mail_deleted` is NOT "incremented exactly when a removal is actually
performed", and it does not stay 0 in dry-run mode. -/
theorem C1_counterexample :
    remove_selection (fun _ => true) { confBase with dry_run := true }
        initStats [("box1", "1")] =
      RemoveResult.ok { initStats with mail_deleted := 1 } [] ∧
    ({ initStats with mail_deleted := 1 } : Stats).mail_deleted ≠
      ([] : List Uid).length := by
  constructor
  · rfl
  · decide

/-- C1 (amended): `mail_deleted` is incremented once per selected pair
*before* the removal is attempted.  In dry-run mode it still rises by the
full selection length although nothing is removed; without dry-run and no
failure it rises by the selection length with every pair removed in order;
and when a store-level removal raises, the loop aborts with the completed
removals being exactly the pairs before the failing one while `mail_deleted`
counts those plus the failed attempt. -/
theorem C1_amended_deleted_counts_attempts (removeOk : Uid → Bool)
    (conf : Conf) (st : Stats) (sel : List Uid)
    (huniq : uniqueKeepFirst sel = sel) :
    (conf.dry_run = true →
      remove_selection removeOk conf st sel =
        RemoveResult.ok
          { st with mail_deleted := st.mail_deleted + sel.length } []) ∧
    (conf.dry_run = false → (∀ u ∈ sel, removeOk u = true) →
      remove_selection removeOk conf st sel =
        RemoveResult.ok
          { st with mail_deleted := st.mail_deleted + sel.length } sel) ∧
    (∀ good u rest, conf.dry_run = false → sel = good ++ u :: rest →
      (∀ v ∈ good, removeOk v = true) → removeOk u = false →
      remove_selection removeOk conf st sel =
        RemoveResult.removeError
          { st with mail_deleted := st.mail_deleted + good.length + 1 }
          good) := by
  refine ⟨fun hdry => ?_, fun hdry hall => ?_, fun good u rest hdry hsel hgood hu => ?_⟩
  · rw [remove_selection, if_neg (by simp [huniq]), hdry, removeLoop_dry]
  · rw [remove_selection, if_neg (by simp [huniq]), hdry,
      removeLoop_allOk removeOk sel st [] hall]
    simp
  · rw [remove_selection, if_neg (by simp [huniq]), hdry, hsel,
      removeLoop_fail removeOk good st [] u rest hgood hu]
    simp

/-- C1 witness: a 3-pair selection whose second removal raises — the final
`mail_deleted` is 2 (one completed deletion plus the failed attempt) and
only the first pair was removed. -/
theorem C1_amended_deleted_counts_attempts_witness :
    remove_selection (fun u => u.2 ≠ "2") confBase initStats
        [("s", "1"), ("s", "2"), ("s", "3")] =
      RemoveResult.removeError { initStats with mail_deleted := 2 }
        [("s", "1")] := by
  have h := (C1_amended_deleted_counts_attempts (fun u => u.2 ≠ "2") confBase
    initStats [("s", "1"), ("s", "2"), ("s", "3")] (by decide)).2.2
    [("s", "1")] ("s", "2") [("s", "3")] rfl rfl (by decide) (by decide)
  simpa using h

/-!
## Claim C7
-/

def boxW : Box := { mails := [("1", mailOne), ("9", mailThree)] }

def fsW : FSOracle :=
  { resolve := fun p => if p = "box1" ∨ p = "link-to-box1" then some "box1"
      else none,
    openBox := fun p => if p = "box1" then some boxW else none }

def dedupW : Dedup := { sources := [("box1", boxW)], stats := initStats }

/-- C7 (counterexample): registering a path whose resolved form is already
registered raises a plain `ValueError` (line 298 of `deduplicate.py`), not
a `DuplicateSourceError` as the specification states. -/
theorem C7_counterexample :
    add_source fsW dedupW "link-to-box1" =
      Except.error (PyErr.valueError "box1 already added.") ∧
    add_source fsW dedupW "link-to-box1" ≠
      Except.error PyErr.duplicateSourceError := by
  have h1 : add_source fsW dedupW "link-to-box1" =
      Except.error (PyErr.valueError "box1 already added.") := rfl
  refine ⟨h1, fun h2 => ?_⟩
  rw [h1] at h2
  simp at h2

/-- C7 (amended): `add_source` resolves the path to its absolute,
symlink-resolved form and fails with a `ValueError` (not a
`DuplicateSourceError`) when that resolved path is already registered,
leaving the registry unchanged (the raise precedes any mutation); it also
fails when the path does not exist or cannot be opened as a mail store; on
success the source is appended to the registry and `mail_found` rises by
the store's mail count. -/
theorem C7_amended_add_source (fs : FSOracle) (d : Dedup) (p : String) :
    (fs.resolve p = none →
      add_source fs d p = Except.error PyErr.fileNotFoundError) ∧
    (∀ rp, fs.resolve p = some rp → rp ∈ d.sources.map Prod.fst →
      add_source fs d p =
        Except.error (PyErr.valueError (rp ++ " already added."))) ∧
    (∀ rp, fs.resolve p = some rp → rp ∉ d.sources.map Prod.fst →
      fs.openBox rp = none →
      add_source fs d p = Except.error PyErr.boxOpenError) ∧
    (∀ rp box, fs.resolve p = some rp → rp ∉ d.sources.map Prod.fst →
      fs.openBox rp = some box →
      add_source fs d p = Except.ok { d with
        sources := d.sources ++ [(rp, box)],
        stats := { d.stats with
          mail_found := d.stats.mail_found + box.mails.length } }) := by
  refine ⟨fun h => ?_, fun rp h hmem => ?_, fun rp h hmem hbox => ?_,
    fun rp box h hmem hbox => ?_⟩
  · rw [add_source, h]
  · rw [add_source, h]
    have hc : (List.map Prod.fst d.sources).contains rp = true :=
      List.elem_iff.mpr hmem
    dsimp only
    rw [if_pos hc]
  · rw [add_source, h]
    have hc : ¬((List.map Prod.fst d.sources).contains rp = true) :=
      fun hc => hmem (List.elem_iff.mp hc)
    dsimp only
    rw [if_neg hc, hbox]
  · rw [add_source, h]
    have hc : ¬((List.map Prod.fst d.sources).contains rp = true) :=
      fun hc => hmem (List.elem_iff.mp hc)
    dsimp only
    rw [if_neg hc, hbox]

def dedupEmpty : Dedup := { sources := [], stats := initStats }

/-- C7 witness: a fresh resolvable path registers successfully and adds the
box's two mails to `mail_found`; instantiates the success case. -/
theorem C7_amended_add_source_witness :
    add_source fsW dedupEmpty "link-to-box1" =
      Except.ok
        { sources := [("box1", boxW)],
          stats := { initStats with mail_found := 2 } } := by
  have h := (C7_amended_add_source fsW dedupEmpty "link-to-box1").2.2.2
    "box1" boxW (by decide) (by decide) (by decide)
  simpa [boxW, dedupEmpty] using h

/-!
## Claim C6
-/

/-- Sum of the six terminal-outcome set counters. -/
def outcomeSum (st : Stats) : Nat :=
  st.set_ignored + st.set_rejected_encoding + st.set_rejected_size +
    st.set_rejected_content + st.set_skipped + st.set_deduplicated

/-- Every duplicate set reaches exactly one terminal outcome: its local
statistics delta has outcome counters summing to 1, and never touches
`set_total`. -/
theorem select_candidates_one_outcome (conf : Conf)
    (strat : List Mail → List Uid) (pool : List Mail) :
    outcomeSum (select_candidates conf strat pool).1 = 1 ∧
    (select_candidates conf strat pool).1.set_total = 0 := by
  by_cases hsz : pool.length = 1
  · simp [select_candidates, hsz, outcomeSum]
  · rcases hc : (check_differences conf (combinations2 pool)).1 with _ | err
    · cases hstrat : conf.hasStrategy with
      | false =>
        simp [select_candidates, hsz, hc, hstrat, outcomeSum,
          Stats.add_eq, Stats.add]
      | true =>
        by_cases hall : (strat pool).length = pool.length <;>
          simp [select_candidates, hsz, hc, hstrat, hall, outcomeSum,
            Stats.add_eq, Stats.add]
    · cases err <;>
        simp [select_candidates, hsz, hc, outcomeSum, Stats.add_eq, Stats.add]

theorem selectStep_eq (conf : Conf) (strat : List Mail → List Uid)
    (st : Stats) (sel : List Uid) (b : String × List Mail) :
    selectStep conf strat (st, sel) b =
      (st + (select_candidates conf strat b.2).1,
       appendCandidates sel (select_candidates conf strat b.2).2) := rfl

/-- Generic accounting for the `select_all` fold: any additive projection of
the final statistics equals its start value plus the per-set deltas. -/
theorem foldl_selectStep_stat (g : Stats → Nat)
    (hg : ∀ a b : Stats, g (a + b) = g a + g b)
    (conf : Conf) (strat : List Mail → List Uid) :
    ∀ (buckets : List (String × List Mail)) (st : Stats) (sel : List Uid),
      g ((buckets.foldl (selectStep conf strat) (st, sel)).1) =
        g st +
          (buckets.map fun b => g (select_candidates conf strat b.2).1).sum := by
  intro buckets
  induction buckets with
  | nil => intro st sel; simp
  | cons b rest ih =>
    intro st sel
    simp only [List.foldl_cons, List.map_cons, List.sum_cons, selectStep_eq]
    rw [ih, hg]
    omega

theorem sum_map_eq_length {α : Type} (l : List α) (f : α → Nat)
    (h : ∀ x ∈ l, f x = 1) : (l.map f).sum = l.length := by
  induction l with
  | nil => rfl
  | cons x xs ih =>
    simp [h x (by simp), ih (fun y hy => h y (by simp [hy]))]
    omega

theorem sum_map_eq_zero {α : Type} (l : List α) (f : α → Nat)
    (h : ∀ x ∈ l, f x = 0) : (l.map f).sum = 0 := by
  induction l with
  | nil => rfl
  | cons x xs ih =>
    simp [h x (by simp), ih (fun y hy => h y (by simp [hy]))]

/-- C6: after `select_all`, `set_total` equals the number of hash buckets
recorded before iteration began, and the six terminal-outcome counters
partition it (starting from a state whose outcome counters are all zero, as
after grouping). -/
theorem C6_set_total_partitioned (conf : Conf) (strat : List Mail → List Uid)
    (buckets : List (String × List Mail)) (st0 : Stats) (sel0 : List Uid)
    (hkeys : (buckets.map Prod.fst).Nodup)
    (hz : st0.set_ignored = 0 ∧ st0.set_rejected_encoding = 0 ∧
      st0.set_rejected_size = 0 ∧ st0.set_rejected_content = 0 ∧
      st0.set_skipped = 0 ∧ st0.set_deduplicated = 0) :
    (select_all conf strat buckets st0 sel0).1.set_total = buckets.length ∧
    (select_all conf strat buckets st0 sel0).1.set_total =
      (select_all conf strat buckets st0 sel0).1.set_ignored +
        (select_all conf strat buckets st0 sel0).1.set_rejected_encoding +
        (select_all conf strat buckets st0 sel0).1.set_rejected_size +
        (select_all conf strat buckets st0 sel0).1.set_rejected_content +
        (select_all conf strat buckets st0 sel0).1.set_skipped +
        (select_all conf strat buckets st0 sel0).1.set_deduplicated := by
  have htot : (select_all conf strat buckets st0 sel0).1.set_total =
      buckets.length := by
    unfold select_all
    rw [foldl_selectStep_stat Stats.set_total (fun a b => rfl) conf strat,
      sum_map_eq_zero _ _
        (fun b _ => (select_candidates_one_outcome conf strat b.2).2)]
    simp
  have hout : outcomeSum (select_all conf strat buckets st0 sel0).1 =
      buckets.length := by
    unfold select_all
    rw [foldl_selectStep_stat outcomeSum
        (fun a b => by simp [outcomeSum, Stats.add_eq, Stats.add]; omega)
        conf strat,
      sum_map_eq_length _ _
        (fun b _ => (select_candidates_one_outcome conf strat b.2).1)]
    have : outcomeSum { st0 with set_total := buckets.length } =
        outcomeSum st0 := rfl
    rw [this]
    unfold outcomeSum
    omega
  refine ⟨htot, ?_⟩
  rw [htot]
  unfold outcomeSum at hout
  omega

/-- C6 witness: three concrete buckets — one unique, one deduplicated, one
skipped (no strategy applies since `confBase` thresholds pass trivially and
the strategy returns everything). -/
theorem C6_set_total_partitioned_witness :
    (select_all confBase (fun pool => pool.map Mail.uid)
        [("h1", [mailOne]), ("h2", [mailOne, mailTwo]),
         ("h3", [mailOne, mailTwo, mailThree])] initStats []).1.set_total =
      3 ∧
    (select_all confBase (fun pool => pool.map Mail.uid)
        [("h1", [mailOne]), ("h2", [mailOne, mailTwo]),
         ("h3", [mailOne, mailTwo, mailThree])] initStats []).1.set_total =
      (select_all confBase (fun pool => pool.map Mail.uid)
          [("h1", [mailOne]), ("h2", [mailOne, mailTwo]),
           ("h3", [mailOne, mailTwo, mailThree])] initStats
          []).1.set_ignored +
        (select_all confBase (fun pool => pool.map Mail.uid)
            [("h1", [mailOne]), ("h2", [mailOne, mailTwo]),
             ("h3", [mailOne, mailTwo, mailThree])] initStats
            []).1.set_rejected_encoding +
        (select_all confBase (fun pool => pool.map Mail.uid)
            [("h1", [mailOne]), ("h2", [mailOne, mailTwo]),
             ("h3", [mailOne, mailTwo, mailThree])] initStats
            []).1.set_rejected_size +
        (select_all confBase (fun pool => pool.map Mail.uid)
            [("h1", [mailOne]), ("h2", [mailOne, mailTwo]),
             ("h3", [mailOne, mailTwo, mailThree])] initStats
            []).1.set_rejected_content +
        (select_all confBase (fun pool => pool.map Mail.uid)
            [("h1", [mailOne]), ("h2", [mailOne, mailTwo]),
             ("h3", [mailOne, mailTwo, mailThree])] initStats
            []).1.set_skipped +
        (select_all confBase (fun pool => pool.map Mail.uid)
            [("h1", [mailOne]), ("h2", [mailOne, mailTwo]),
             ("h3", [mailOne, mailTwo, mailThree])] initStats
            []).1.set_deduplicated :=
  C6_set_total_partitioned confBase (fun pool => pool.map Mail.uid)
    [("h1", [mailOne]), ("h2", [mailOne, mailTwo]),
     ("h3", [mailOne, mailTwo, mailThree])] initStats [] (by decide)
    (by decide)

/-!
## Claim C8
-/

theorem firstViolation_append (conf : Conf) (xs ys : List Cmp) :
    firstViolation conf (xs ++ ys) =
      match firstViolation conf xs with
      | some e => some e
      | none => firstViolation conf ys := by
  induction xs with
  | nil => simp [firstViolation]
  | cons c xs ih =>
    simp only [List.cons_append, firstViolation]
    rcases hc : cmpViolation conf c with _ | e <;> simp [hc, ih]

/-- The loop body for one pair agrees with the spec-side description: its
outcome is the first violation among the pair's prescribed comparisons, the
performed comparisons are exactly the prescribed ones when nothing is
raised, and otherwise an initial segment of them. -/
theorem checkOnePair_spec (conf : Conf) (a b : Mail) :
    (checkOnePair conf a b).1 = firstViolation conf (pairCmps conf (a, b)) ∧
    ((checkOnePair conf a b).1 = none →
      (checkOnePair conf a b).2 = pairCmps conf (a, b)) ∧
    ∃ rest, pairCmps conf (a, b) = (checkOnePair conf a b).2 ++ rest := by
  by_cases hs : conf.size_threshold > -1
  · by_cases hv : (sizeDifference a b : Int) > conf.size_threshold
    · by_cases hct : conf.content_threshold > -1 <;>
        simp [checkOnePair, pairCmps, firstViolation, cmpViolation, hs, hv,
          hct]
    · by_cases hct : conf.content_threshold > -1
      · rcases hd : DuplicateSet.diff a b with _ | d
        · simp [checkOnePair, pairCmps, firstViolation, cmpViolation, hs, hv,
            hct, hd]
        · by_cases hdt : (d : Int) > conf.content_threshold <;>
            simp [checkOnePair, pairCmps, firstViolation, cmpViolation, hs,
              hv, hct, hd, hdt]
      · simp [checkOnePair, pairCmps, firstViolation, cmpViolation, hs, hv,
          hct]
  · by_cases hct : conf.content_threshold > -1
    · rcases hd : DuplicateSet.diff a b with _ | d
      · simp [checkOnePair, pairCmps, firstViolation, cmpViolation, hs, hct,
          hd]
      · by_cases hdt : (d : Int) > conf.content_threshold <;>
          simp [checkOnePair, pairCmps, firstViolation, cmpViolation, hs,
            hct, hd, hdt]
    · simp [checkOnePair, pairCmps, firstViolation, cmpViolation, hs, hct]

theorem allCmps_cons (conf : Conf) (p : Mail × Mail)
    (pairs : List (Mail × Mail)) :
    allCmps conf (p :: pairs) = pairCmps conf p ++ allCmps conf pairs := by
  simp [allCmps]

/-- The comparison loop: its outcome is the first violation among all
prescribed comparisons, and the performed comparisons are an initial
segment of the prescribed ones. -/
theorem checkLoop_spec (conf : Conf) (pairs : List (Mail × Mail)) :
    (checkLoop conf pairs).1 = firstViolation conf (allCmps conf pairs) ∧
    ∃ rest, allCmps conf pairs = (checkLoop conf pairs).2 ++ rest := by
  induction pairs with
  | nil => simp [checkLoop, allCmps, firstViolation]
  | cons p pairs ih =>
    obtain ⟨a, b⟩ := p
    obtain ⟨h1, h2, h3⟩ := checkOnePair_spec conf a b
    rw [allCmps_cons, firstViolation_append]
    rcases hcc : checkOnePair conf a b with ⟨r, t⟩
    rw [hcc] at h1 h2 h3
    rcases r with _ | e
    · have ht : t = pairCmps conf (a, b) := h2 rfl
      have hfv : firstViolation conf (pairCmps conf (a, b)) = none := h1.symm
      have hstep : checkLoop conf ((a, b) :: pairs) =
          ((checkLoop conf pairs).1, t ++ (checkLoop conf pairs).2) := by
        simp [checkLoop, hcc]
      rw [hstep, hfv]
      obtain ⟨rest, hrest⟩ := ih.2
      exact ⟨ih.1, rest, by simp [ht, hrest]⟩
    · have hfv : firstViolation conf (pairCmps conf (a, b)) = some e :=
        h1.symm
      have hstep : checkLoop conf ((a, b) :: pairs) = (some e, t) := by
        simp [checkLoop, hcc]
      rw [hstep, hfv]
      obtain ⟨rest, hrest⟩ := h3
      exact ⟨rfl, rest ++ allCmps conf pairs, by simp [hrest]⟩

theorem pairCmps_no_size (conf : Conf) (hs : conf.size_threshold < 0)
    (p : Mail × Mail) (a b : Mail) : Cmp.sizeCmp a b ∉ pairCmps conf p := by
  have hs' : ¬(conf.size_threshold > -1) := by omega
  simp [pairCmps, hs']

theorem pairCmps_no_content (conf : Conf) (hc : conf.content_threshold < 0)
    (p : Mail × Mail) (a b : Mail) :
    Cmp.contentCmp a b ∉ pairCmps conf p := by
  have hc' : ¬(conf.content_threshold > -1) := by omega
  simp [pairCmps, hc']

/-- C8: a size (resp. content) comparison is performed only when its
threshold is ≥ 0 — a negative threshold disables that check, and with both
thresholds negative no comparison happens at all; the performed comparisons
are an initial segment of the spec's prescribed sequence (size before
content for every examined pair), and the outcome is determined by the
first violating comparison. -/
theorem C8_gating_order_first_violation (conf : Conf)
    (pairs : List (Mail × Mail)) :
    (check_differences conf pairs).1 =
      firstViolation conf (allCmps conf pairs) ∧
    (∃ rest, allCmps conf pairs = (check_differences conf pairs).2 ++ rest) ∧
    (conf.size_threshold < 0 ∧ conf.content_threshold < 0 →
      (check_differences conf pairs).2 = []) ∧
    (conf.size_threshold < 0 →
      ∀ a b : Mail, Cmp.sizeCmp a b ∉ (check_differences conf pairs).2) ∧
    (conf.content_threshold < 0 →
      ∀ a b : Mail, Cmp.contentCmp a b ∉ (check_differences conf pairs).2) := by
  have hmem : ∀ c, c ∈ (check_differences conf pairs).2 →
      ∃ p ∈ pairs, c ∈ pairCmps conf p := by
    intro c hc
    by_cases hneg : conf.size_threshold < 0 ∧ conf.content_threshold < 0
    · rw [check_differences, if_pos hneg] at hc
      simp at hc
    · rw [check_differences, if_neg hneg] at hc
      obtain ⟨rest, hrest⟩ := (checkLoop_spec conf pairs).2
      have hx : c ∈ allCmps conf pairs := by
        rw [hrest]; exact List.mem_append_left _ hc
      unfold allCmps at hx
      rw [List.mem_flatten] at hx
      obtain ⟨l, hl, hcl⟩ := hx
      rw [List.mem_map] at hl
      obtain ⟨p, hp, rfl⟩ := hl
      exact ⟨p, hp, hcl⟩
  refine ⟨?_, ?_, ?_, ?_, ?_⟩
  · by_cases hneg : conf.size_threshold < 0 ∧ conf.content_threshold < 0
    · rw [check_differences, if_pos hneg]
      have hall : allCmps conf pairs = [] := by
        obtain ⟨hs, hc⟩ := hneg
        have hs' : ¬(conf.size_threshold > -1) := by omega
        have hc' : ¬(conf.content_threshold > -1) := by omega
        unfold allCmps
        apply List.flatten_eq_nil_iff.mpr
        intro l hl
        simp only [List.mem_map] at hl
        obtain ⟨p, _, hp⟩ := hl
        rw [← hp]
        simp [pairCmps, hs', hc']
      rw [hall]
      rfl
    · rw [check_differences, if_neg hneg]
      exact (checkLoop_spec conf pairs).1
  · by_cases hneg : conf.size_threshold < 0 ∧ conf.content_threshold < 0
    · refine ⟨allCmps conf pairs, ?_⟩
      rw [check_differences, if_pos hneg]
      rfl
    · rw [check_differences, if_neg hneg]
      exact (checkLoop_spec conf pairs).2
  · intro hneg
    rw [check_differences, if_pos hneg]
  · intro hs a b hin
    obtain ⟨p, _, hp⟩ := hmem _ hin
    exact pairCmps_no_size conf hs p a b hp
  · intro hc a b hin
    obtain ⟨p, _, hp⟩ := hmem _ hin
    exact pairCmps_no_content conf hc p a b hp

/-- C8 witness: with both thresholds negative, no comparison is performed
on a concrete 3-mail set's pairs. -/
theorem C8_gating_order_first_violation_witness :
    (check_differences confBase
        (combinations2 [mailOne, mailTwo, mailThree])).2 = [] :=
  (C8_gating_order_first_violation confBase
      (combinations2 [mailOne, mailTwo, mailThree])).2.2.1 (by decide)

/-!
## Claim C4
-/

theorem bucketMails_cons (k : String) (ms : List Mail)
    (rest : List (String × List Mail)) :
    bucketMails ((k, ms) :: rest) = ms ++ bucketMails rest := rfl

theorem totalBucketSize_cons (k : String) (ms : List Mail)
    (rest : List (String × List Mail)) :
    totalBucketSize ((k, ms) :: rest) = ms.length + totalBucketSize rest := rfl

theorem retainedMails_cons_some (m : Mail) (h : String)
    (stream : List (Mail × Option String)) :
    retainedMails ((m, some h) :: stream) = m :: retainedMails stream := rfl

theorem retainedMails_cons_none (m : Mail)
    (stream : List (Mail × Option String)) :
    retainedMails ((m, none) :: stream) = retainedMails stream := rfl

/-- Adding a mail not yet present anywhere grows the total bucket size by
exactly one (the set `add` cannot collapse it). -/
theorem totalBucketSize_addToBucket (bks : List (String × List Mail))
    (h : String) (m : Mail) (hm : m ∉ bucketMails bks) :
    totalBucketSize (addToBucket bks h m) = totalBucketSize bks + 1 := by
  induction bks with
  | nil => rfl
  | cons b rest ih =>
    obtain ⟨k, ms⟩ := b
    rw [bucketMails_cons] at hm
    by_cases hk : k = h
    · have hmm : m ∉ ms := fun hin => hm (List.mem_append_left _ hin)
      rw [addToBucket, if_pos hk, if_neg hmm, totalBucketSize_cons,
        totalBucketSize_cons]
      simp
      omega
    · have hm' : m ∉ bucketMails rest :=
        fun hin => hm (List.mem_append_right _ hin)
      rw [addToBucket, if_neg hk, totalBucketSize_cons, totalBucketSize_cons,
        ih hm']
      omega

/-- The mails held after an add are the previous ones plus (possibly) the
added mail. -/
theorem bucketMails_addToBucket (bks : List (String × List Mail))
    (h : String) (m : Mail) :
    ∀ x ∈ bucketMails (addToBucket bks h m), x ∈ bucketMails bks ∨ x = m := by
  induction bks with
  | nil =>
    intro x hx
    rw [addToBucket] at hx
    rw [bucketMails_cons] at hx
    rcases List.mem_append.mp hx with hx | hx
    · right; simpa using hx
    · left; exact hx
  | cons b rest ih =>
    obtain ⟨k, ms⟩ := b
    intro x hx
    by_cases hk : k = h
    · rw [addToBucket, if_pos hk, bucketMails_cons] at hx
      rcases List.mem_append.mp hx with hx | hx
      · by_cases hmm : m ∈ ms
        · rw [if_pos hmm] at hx
          exact Or.inl (by rw [bucketMails_cons]; exact List.mem_append_left _ hx)
        · rw [if_neg hmm] at hx
          rcases List.mem_append.mp hx with hx | hx
          · exact Or.inl (by rw [bucketMails_cons]; exact List.mem_append_left _ hx)
          · right; simpa using hx
      · exact Or.inl (by rw [bucketMails_cons]; exact List.mem_append_right _ hx)
    · rw [addToBucket, if_neg hk, bucketMails_cons] at hx
      rcases List.mem_append.mp hx with hx | hx
      · exact Or.inl (by rw [bucketMails_cons]; exact List.mem_append_left _ hx)
      · rcases ih x hx with hin | heq
        · exact Or.inl (by rw [bucketMails_cons]; exact List.mem_append_right _ hin)
        · exact Or.inr heq

/-- Grouping accounting: when the retained mails are pairwise distinct and
none is already in a bucket, `mail_retained` grows exactly as the total
bucket size does. -/
theorem hash_all_retained (stream : List (Mail × Option String)) :
    ∀ (st : Stats) (bks : List (String × List Mail)),
      (retainedMails stream).Nodup →
      (∀ m ∈ retainedMails stream, m ∉ bucketMails bks) →
      (hash_all stream st bks).1.mail_retained + totalBucketSize bks =
        st.mail_retained + totalBucketSize (hash_all stream st bks).2 := by
  induction stream with
  | nil => intro st bks _ _; simp [hash_all]
  | cons e stream ih =>
    obtain ⟨m, ho⟩ := e
    intro st bks hnd hfresh
    rcases ho with _ | h
    · rw [show hash_all ((m, none) :: stream) st bks =
          hash_all stream { st with mail_rejected := st.mail_rejected + 1 }
            bks from rfl]
      have := ih { st with mail_rejected := st.mail_rejected + 1 } bks
        (by rwa [retainedMails_cons_none] at hnd)
        (by intro x hx; exact hfresh x (by rwa [retainedMails_cons_none]))
      simpa using this
    · rw [show hash_all ((m, some h) :: stream) st bks =
          hash_all stream { st with mail_retained := st.mail_retained + 1 }
            (addToBucket bks h m) from rfl]
      rw [retainedMails_cons_some] at hnd hfresh
      have hmfresh : m ∉ bucketMails bks := hfresh m (List.mem_cons_self m _)
      have hnodup := List.nodup_cons.mp hnd
      have hfresh' : ∀ x ∈ retainedMails stream,
          x ∉ bucketMails (addToBucket bks h m) := by
        intro x hx hxin
        rcases bucketMails_addToBucket bks h m x hxin with hin | rfl
        · exact hfresh x (List.mem_cons_of_mem _ hx) hin
        · exact hnodup.1 hx
      have hih := ih { st with mail_retained := st.mail_retained + 1 }
        (addToBucket bks h m) hnodup.2 hfresh'
      rw [totalBucketSize_addToBucket bks h m hmfresh] at hih
      have hproj : ({ st with mail_retained := st.mail_retained + 1 } :
          Stats).mail_retained = st.mail_retained + 1 := rfl
      rw [hproj] at hih
      omega

/-- Grouping touches only `mail_rejected` and `mail_retained` among the
counters considered here. -/
theorem hash_all_other_fields (stream : List (Mail × Option String)) :
    ∀ (st : Stats) (bks : List (String × List Mail)),
      (hash_all stream st bks).1.mail_discarded = st.mail_discarded ∧
      (hash_all stream st bks).1.mail_selected = st.mail_selected := by
  induction stream with
  | nil => intro st bks; exact ⟨rfl, rfl⟩
  | cons e stream ih =>
    obtain ⟨m, ho⟩ := e
    intro st bks
    rcases ho with _ | h
    · exact ih { st with mail_rejected := st.mail_rejected + 1 } bks
    · exact ih { st with mail_retained := st.mail_retained + 1 }
        (addToBucket bks h m)

/-- A set's delta never touches `mail_retained`. -/
theorem select_candidates_retained_zero (conf : Conf)
    (strat : List Mail → List Uid) (pool : List Mail) :
    (select_candidates conf strat pool).1.mail_retained = 0 := by
  by_cases hsz : pool.length = 1
  · simp [select_candidates, hsz]
  · rcases hc : (check_differences conf (combinations2 pool)).1 with _ | err
    · cases hstrat : conf.hasStrategy with
      | false => simp [select_candidates, hsz, hc, hstrat, Stats.add_eq, Stats.add]
      | true =>
        by_cases hall : (strat pool).length = pool.length <;>
          simp [select_candidates, hsz, hc, hstrat, hall, Stats.add_eq,
            Stats.add]
    · cases err <;>
        simp [select_candidates, hsz, hc, Stats.add_eq, Stats.add]

/-- A set's delta always accounts each of its mails exactly once between
`mail_discarded` and `mail_selected` (given the strategy contract that it
returns no more candidates than the set holds). -/
theorem select_candidates_discarded_selected (conf : Conf)
    (strat : List Mail → List Uid) (pool : List Mail)
    (hsub : (strat pool).length ≤ pool.length) :
    (select_candidates conf strat pool).1.mail_discarded +
      (select_candidates conf strat pool).1.mail_selected = pool.length := by
  by_cases hsz : pool.length = 1
  · simp [select_candidates, hsz]
  · rcases hc : (check_differences conf (combinations2 pool)).1 with _ | err
    · cases hstrat : conf.hasStrategy with
      | false => simp [select_candidates, hsz, hc, hstrat, Stats.add_eq, Stats.add]
      | true =>
        by_cases hall : (strat pool).length = pool.length
        · simp [select_candidates, hsz, hc, hstrat, hall, Stats.add_eq,
            Stats.add]
        · simp [select_candidates, hsz, hc, hstrat, hall, Stats.add_eq,
            Stats.add]
          omega
    · cases err <;>
        simp [select_candidates, hsz, hc, Stats.add_eq, Stats.add]

theorem sum_map_congr {α : Type} (l : List α) (f g : α → Nat)
    (h : ∀ x ∈ l, f x = g x) : (l.map f).sum = (l.map g).sum := by
  induction l with
  | nil => rfl
  | cons x xs ih =>
    simp [h x (by simp), ih (fun y hy => h y (by simp [hy]))]

/-- The removal loop leaves every counter except `mail_deleted` unchanged
when it completes normally. -/
theorem removeLoop_ok_fields (removeOk : Uid → Bool) (dry : Bool)
    (sel : List Uid) :
    ∀ (st : Stats) (perf : List Uid) (st' : Stats) (perf' : List Uid),
      removeLoop removeOk dry sel st perf = RemoveResult.ok st' perf' →
      st'.mail_retained = st.mail_retained ∧
      st'.mail_discarded = st.mail_discarded ∧
      st'.mail_selected = st.mail_selected := by
  induction sel with
  | nil =>
    intro st perf st' perf' hrun
    rw [removeLoop] at hrun
    cases hrun
    exact ⟨rfl, rfl, rfl⟩
  | cons u rest ih =>
    intro st perf st' perf' hrun
    rw [removeLoop] at hrun
    cases dry with
    | true =>
      rw [if_pos rfl] at hrun
      exact ih { st with mail_deleted := st.mail_deleted + 1 } _ _ _ hrun
    | false =>
      rw [if_neg (by simp)] at hrun
      by_cases hok : removeOk u = true
      · rw [if_pos hok] at hrun
        exact ih { st with mail_deleted := st.mail_deleted + 1 } _ _ _ hrun
      · rw [if_neg hok] at hrun
        cases hrun

/-- C4: after any complete run — grouping of a stream of pairwise-distinct
retained mails, selection over every hash bucket with a strategy honouring
its subset contract, and (optionally) a removal pass that runs to
completion — the counters satisfy
`mail_retained == mail_discarded + mail_selected`. -/
theorem C4_retained_eq_discarded_plus_selected (conf : Conf)
    (strat : List Mail → List Uid) (removeOk : Uid → Bool)
    (stream : List (Mail × Option String)) (doRemoval : Bool) (st : Stats)
    (hnd : (retainedMails stream).Nodup)
    (hsub : ∀ pool, (strat pool).length ≤ pool.length)
    (hrun : pipelineStats conf strat removeOk stream doRemoval = some st) :
    st.mail_retained = st.mail_discarded + st.mail_selected := by
  unfold pipelineStats at hrun
  rcases hh : hash_all stream initStats [] with ⟨st1, buckets⟩
  rw [hh] at hrun
  dsimp only at hrun
  rcases hs : select_all conf strat buckets st1 [] with ⟨st2, sel⟩
  rw [hs] at hrun
  dsimp only at hrun
  -- Accounting after grouping.
  have hret1 : st1.mail_retained = totalBucketSize buckets := by
    have := hash_all_retained stream initStats [] hnd (by intro m _; simp [bucketMails])
    rw [hh] at this
    simpa [totalBucketSize, initStats] using this
  have hother1 := hash_all_other_fields stream initStats []
  rw [hh] at hother1
  have hdisc1 : st1.mail_discarded = 0 := by simpa [initStats] using hother1.1
  have hsel1 : st1.mail_selected = 0 := by simpa [initStats] using hother1.2
  -- Accounting after selection.
  have hret2 : st2.mail_retained = st1.mail_retained := by
    have := foldl_selectStep_stat Stats.mail_retained (fun a b => rfl) conf
      strat buckets { st1 with set_total := buckets.length } []
    rw [show buckets.foldl (selectStep conf strat)
        ({ st1 with set_total := buckets.length }, []) =
        select_all conf strat buckets st1 [] from rfl, hs] at this
    rw [sum_map_eq_zero _ _
      (fun b _ => select_candidates_retained_zero conf strat b.2)] at this
    simpa using this
  have hds2 : st2.mail_discarded + st2.mail_selected =
      totalBucketSize buckets := by
    have hadd : ∀ a b : Stats,
        (a + b).mail_discarded + (a + b).mail_selected =
          (a.mail_discarded + a.mail_selected) +
            (b.mail_discarded + b.mail_selected) := by
      intro a b
      rw [Stats.add_eq]
      show (a.mail_discarded + b.mail_discarded) +
          (a.mail_selected + b.mail_selected) = _
      omega
    have := foldl_selectStep_stat
      (fun s => s.mail_discarded + s.mail_selected) hadd conf strat buckets
      { st1 with set_total := buckets.length } []
    rw [show buckets.foldl (selectStep conf strat)
        ({ st1 with set_total := buckets.length }, []) =
        select_all conf strat buckets st1 [] from rfl, hs] at this
    rw [sum_map_congr _ _ (fun b => b.2.length)
      (fun b _ => select_candidates_discarded_selected conf strat b.2
        (hsub b.2))] at this
    have hst1 : ({ st1 with set_total := buckets.length } : Stats).mail_discarded +
        ({ st1 with set_total := buckets.length } : Stats).mail_selected = 0 := by
      show st1.mail_discarded + st1.mail_selected = 0
      omega
    rw [hst1] at this
    simpa [totalBucketSize] using this
  -- The optional removal pass.
  cases doRemoval with
  | false =>
    rw [if_neg (by simp)] at hrun
    cases hrun
    omega
  | true =>
    rw [if_pos rfl] at hrun
    cases hrem : remove_selection removeOk conf st2 sel with
    | ok st3 perf =>
      rw [hrem] at hrun
      dsimp only at hrun
      cases hrun
      rw [remove_selection] at hrem
      by_cases hu : uniqueKeepFirst sel ≠ sel
      · rw [if_pos hu] at hrem; cases hrem
      · rw [if_neg hu] at hrem
        obtain ⟨hr, hd, hsl⟩ := removeLoop_ok_fields removeOk conf.dry_run
          sel st2 [] _ _ hrem
        omega
    | assertionError =>
      rw [hrem] at hrun
      dsimp only at hrun
      cases hrun
    | removeError st3 perf =>
      rw [hrem] at hrun
      dsimp only at hrun
      cases hrun

def statsC4W : Stats :=
  { mail_rejected := 1, mail_retained := 2, mail_duplicates := 2,
    mail_discarded := 1, mail_selected := 1, mail_deleted := 1,
    set_total := 1, set_deduplicated := 1 }

/-- C4 witness: a complete concrete run — two duplicates sharing a hash,
one rejected mail, a keep-one strategy, and a successful removal pass. -/
theorem C4_retained_eq_discarded_plus_selected_witness :
    pipelineStats confBase (fun pool => (pool.map Mail.uid).take 1)
        (fun _ => true)
        [(mailOne, some "h"), (mailTwo, some "h"), (mailThree, none)] true =
      some statsC4W ∧
    statsC4W.mail_retained = statsC4W.mail_discarded + statsC4W.mail_selected :=
  ⟨by decide,
   C4_retained_eq_discarded_plus_selected confBase
     (fun pool => (pool.map Mail.uid).take 1) (fun _ => true)
     [(mailOne, some "h"), (mailTwo, some "h"), (mailThree, none)] true
     statsC4W (by decide)
     (fun pool => by simp [List.length_take])
     (by decide)⟩

/-!
## Claim C5
-/

/-- The candidates a set hands to the orchestrator are either absent or
exactly the strategy's selection. -/
theorem select_candidates_snd (conf : Conf) (strat : List Mail → List Uid)
    (pool : List Mail) :
    (select_candidates conf strat pool).2 = none ∨
    (select_candidates conf strat pool).2 = some (strat pool) := by
  by_cases hsz : pool.length = 1
  · simp [select_candidates, hsz]
  · rcases hc : (check_differences conf (combinations2 pool)).1 with _ | err
    · cases hstrat : conf.hasStrategy with
      | false => simp [select_candidates, hsz, hc, hstrat]
      | true =>
        by_cases hall : (strat pool).length = pool.length <;>
          simp [select_candidates, hsz, hc, hstrat, hall]
    · cases err <;> simp [select_candidates, hsz, hc]

theorem uniqueKeepFirst_go_of_nodup :
    ∀ (l : List Uid) (seen : List Uid), l.Nodup → (∀ x ∈ l, x ∉ seen) →
      uniqueKeepFirst.go seen l = l := by
  intro l
  induction l with
  | nil => intro seen _ _; rfl
  | cons x xs ih =>
    intro seen hnd hseen
    have hx : x ∉ seen := hseen x (List.mem_cons_self x xs)
    rw [uniqueKeepFirst.go, if_neg hx]
    have hnd' := List.nodup_cons.mp hnd
    rw [ih (x :: seen) hnd'.2]
    intro y hy
    rw [List.mem_cons]
    rintro (rfl | hy')
    · exact hnd'.1 hy
    · exact hseen y (List.mem_cons_of_mem x hy) hy'

/-- The boltons `unique` function is the identity on duplicate-free lists, so
the `assert unique(self.selection) == self.selection` passes. -/
theorem uniqueKeepFirst_of_nodup (l : List Uid) (h : l.Nodup) :
    uniqueKeepFirst l = l :=
  uniqueKeepFirst_go_of_nodup l [] h (by simp)

theorem removeLoop_ne_assert (removeOk : Uid → Bool) (dry : Bool) :
    ∀ (sel : List Uid) (st : Stats) (perf : List Uid),
      removeLoop removeOk dry sel st perf ≠ RemoveResult.assertionError := by
  intro sel
  induction sel with
  | nil => intro st perf h; cases h
  | cons u rest ih =>
    intro st perf h
    rw [removeLoop] at h
    cases dry with
    | true =>
      rw [if_pos rfl] at h
      exact ih _ _ h
    | false =>
      rw [if_neg (by simp)] at h
      by_cases hok : removeOk u = true
      · rw [if_pos hok] at h
        exact ih _ _ h
      · rw [if_neg hok] at h
        cases h

/-- Selection accumulation preserves duplicate-freedom when the buckets'
identifier sets are pairwise disjoint and each strategy result is a
duplicate-free sub-collection of its own bucket's identifiers. -/
theorem select_all_sel_nodup (conf : Conf) (strat : List Mail → List Uid) :
    ∀ (buckets : List (String × List Mail)) (st : Stats) (sel : List Uid),
      sel.Nodup →
      (∀ u ∈ sel, ∀ b ∈ buckets, u ∉ b.2.map Mail.uid) →
      buckets.Pairwise
        (fun x y => ∀ u, u ∈ x.2.map Mail.uid → u ∉ y.2.map Mail.uid) →
      (∀ b ∈ buckets, (strat b.2).Nodup) →
      (∀ b ∈ buckets, ∀ u ∈ strat b.2, u ∈ b.2.map Mail.uid) →
      (buckets.foldl (selectStep conf strat) (st, sel)).2.Nodup := by
  intro buckets
  induction buckets with
  | nil => intro st sel h _ _ _ _; simpa using h
  | cons b rest ih =>
    intro st sel hnd hdis hpw hsn hss
    rw [List.foldl_cons, selectStep_eq]
    have hpw' := List.pairwise_cons.mp hpw
    rcases select_candidates_snd conf strat b.2 with hc | hc
    · rw [hc]
      exact ih _ _ hnd
        (fun u hu b' hb' => hdis u hu b' (List.mem_cons_of_mem b hb'))
        hpw'.2 (fun b' hb' => hsn b' (List.mem_cons_of_mem b hb'))
        (fun b' hb' => hss b' (List.mem_cons_of_mem b hb'))
    · rw [hc]
      by_cases he : (strat b.2).isEmpty
      · show (rest.foldl (selectStep conf strat)
            (_, if (strat b.2).isEmpty then sel else sel ++ strat b.2)).2.Nodup
        rw [if_pos he]
        exact ih _ _ hnd
          (fun u hu b' hb' => hdis u hu b' (List.mem_cons_of_mem b hb'))
          hpw'.2 (fun b' hb' => hsn b' (List.mem_cons_of_mem b hb'))
          (fun b' hb' => hss b' (List.mem_cons_of_mem b hb'))
      · show (rest.foldl (selectStep conf strat)
            (_, if (strat b.2).isEmpty then sel else sel ++ strat b.2)).2.Nodup
        rw [if_neg he]
        apply ih
        · refine List.Nodup.append hnd (hsn b (List.mem_cons_self b rest)) ?_
          intro u hu hub
          exact hdis u hu b (List.mem_cons_self b rest)
            (hss b (List.mem_cons_self b rest) u hub)
        · intro u hu b' hb'
          rcases List.mem_append.mp hu with hu | hu
          · exact hdis u hu b' (List.mem_cons_of_mem b hb')
          · exact hpw'.1 b' hb' u (hss b (List.mem_cons_self b rest) u hu)
        · exact hpw'.2
        · exact fun b' hb' => hsn b' (List.mem_cons_of_mem b hb')
        · exact fun b' hb' => hss b' (List.mem_cons_of_mem b hb')

/-- C5: when the hash buckets' `(source, id)` sets are pairwise disjoint
and every strategy invocation returns a duplicate-free sub-collection of
its own set's identifiers, the final global selection contains no duplicate
pair: boltons `unique` leaves it unchanged and the opening assertion of
`remove_selection` can never fire. -/
theorem C5_selection_no_duplicate_pairs (conf : Conf)
    (strat : List Mail → List Uid) (buckets : List (String × List Mail))
    (st0 : Stats)
    (hpw : buckets.Pairwise
      (fun x y => ∀ u, u ∈ x.2.map Mail.uid → u ∉ y.2.map Mail.uid))
    (hsn : ∀ b ∈ buckets, (strat b.2).Nodup)
    (hss : ∀ b ∈ buckets, ∀ u ∈ strat b.2, u ∈ b.2.map Mail.uid) :
    (select_all conf strat buckets st0 []).2.Nodup ∧
    uniqueKeepFirst (select_all conf strat buckets st0 []).2 =
      (select_all conf strat buckets st0 []).2 ∧
    ∀ (removeOk : Uid → Bool) (conf2 : Conf) (st : Stats),
      remove_selection removeOk conf2 st
          (select_all conf strat buckets st0 []).2 ≠
        RemoveResult.assertionError := by
  have hnd : (select_all conf strat buckets st0 []).2.Nodup := by
    rw [select_all]
    exact select_all_sel_nodup conf strat buckets _ [] (by simp) (by simp)
      hpw hsn hss
  have huniq := uniqueKeepFirst_of_nodup _ hnd
  refine ⟨hnd, huniq, fun removeOk conf2 st => ?_⟩
  rw [remove_selection, if_neg (by simp [huniq])]
  exact removeLoop_ne_assert removeOk conf2.dry_run _ st []

def mailFour : Mail :=
  { source_path := "box2", mail_id := "9", size := 120,
    body_lines := some ["Hello\n"] }

def bucketsC5W : List (String × List Mail) :=
  [("h1", [mailOne, mailTwo]), ("h2", [mailThree, mailFour])]

/-- C5 witness: two disjoint concrete buckets with a keep-one strategy. -/
theorem C5_selection_no_duplicate_pairs_witness :
    (select_all confBase (fun pool => (pool.map Mail.uid).take 1) bucketsC5W
        initStats []).2.Nodup ∧
    remove_selection (fun _ => true) confBase initStats
        (select_all confBase (fun pool => (pool.map Mail.uid).take 1)
            bucketsC5W initStats []).2 ≠
      RemoveResult.assertionError := by
  have h := C5_selection_no_duplicate_pairs confBase
    (fun pool => (pool.map Mail.uid).take 1) bucketsC5W initStats
    (by unfold bucketsC5W
        refine List.Pairwise.cons ?_ (List.pairwise_singleton _ _)
        intro y hy u hu
        simp only [List.mem_singleton] at hy
        subst hy
        revert u hu
        decide)
    (by decide) (by decide)
  exact ⟨h.1, h.2.2 (fun _ => true) confBase initStats⟩

/-!
## Claim C9
-/

def mailAccent : Mail :=
  { source_path := "boxA", mail_id := "1", size := 3,
    body_lines := some ["é\n"] }

def mailNoBody : Mail :=
  { source_path := "boxA", mail_id := "2", size := 0,
    body_lines := some [] }

/-- C9 (counterexample): `diff` measures the joined unified diff with
Python `len`, which counts code points — not bytes.  For the one-line body
`"é\n"` against an empty body, the joined zero-context unified diff is
`"--- a\n+++ b\n@@ -1 +0,0 @@\n-é\n"`: 29 characters but 30 bytes (`é`
encodes to two bytes), so the magnitude is not the byte length. -/
theorem C9_counterexample :
    DuplicateSet.diff mailAccent mailNoBody = some 29 ∧
    specContentMagnitude ["é\n"] [] = 30 ∧
    DuplicateSet.diff mailAccent mailNoBody ≠
      some (specContentMagnitude ["é\n"] []) := by
  refine ⟨by decide, by decide, by decide⟩

theorem asciiString_append (s t : String) (hs : asciiString s)
    (ht : asciiString t) : asciiString (s ++ t) := by
  intro c hc
  rw [String.data_append] at hc
  rcases List.mem_append.mp hc with h | h
  · exact hs c h
  · exact ht c h

theorem byteLength_list (l : List Char) (h : ∀ c ∈ l, c.toNat < 0x80) :
    (l.map charUtf8Size).sum = l.length := by
  induction l with
  | nil => rfl
  | cons c cs ih =>
    have hc : charUtf8Size c = 1 := by
      unfold charUtf8Size
      rw [if_pos (h c (List.mem_cons_self c cs))]
    simp [hc, ih (fun d hd => h d (List.mem_cons_of_mem c hd))]
    omega

/-- For pure-ASCII text the UTF-8 byte length coincides with the character
count (Python `len`). -/
theorem byteLength_eq_length (s : String) (h : asciiString s) :
    byteLength s = s.length :=
  byteLength_list s.data h

theorem asciiString_foldl (l : List String) :
    ∀ acc : String, asciiString acc → (∀ s ∈ l, asciiString s) →
      asciiString (l.foldl (fun r s => r ++ s) acc) := by
  induction l with
  | nil => intro acc ha _; exact ha
  | cons s ss ih =>
    intro acc ha h
    rw [List.foldl_cons]
    exact ih (acc ++ s) (asciiString_append _ _ ha (h s (by simp)))
      (fun t ht => h t (by simp [ht]))

theorem asciiString_join (l : List String) (h : ∀ s ∈ l, asciiString s) :
    asciiString (String.join l) :=
  asciiString_foldl l "" (by decide) h

theorem digitChar_ascii (n : Nat) : (Nat.digitChar n).toNat < 0x80 := by
  rcases Nat.lt_or_ge n 16 with h | h
  · interval_cases n <;> decide
  · have hstar : Nat.digitChar n = Char.ofNat 42 := by
      unfold Nat.digitChar
      iterate 16 rw [if_neg (by omega)]
    rw [hstar]
    decide

theorem toDigitsCore_ascii (fuel : Nat) :
    ∀ (n : Nat) (ds : List Char), (∀ c ∈ ds, c.toNat < 0x80) →
      ∀ c ∈ Nat.toDigitsCore 10 fuel n ds, c.toNat < 0x80 := by
  induction fuel with
  | zero => intro n ds h c hc; exact h c hc
  | succ fuel ih =>
    intro n ds h c hc
    simp only [Nat.toDigitsCore] at hc
    have hds : ∀ d ∈ Nat.digitChar (n % 10) :: ds, d.toNat < 0x80 := by
      intro d hd
      rcases List.mem_cons.mp hd with rfl | hd
      · exact digitChar_ascii _
      · exact h d hd
    by_cases hz : n / 10 = 0
    · rw [if_pos hz] at hc
      exact hds c hc
    · rw [if_neg hz] at hc
      exact ih (n / 10) _ hds c hc

theorem natRepr_ascii (n : Nat) : asciiString (Nat.repr n) := by
  intro c hc
  have hmem : c ∈ Nat.toDigitsCore 10 (n + 1) n [] := hc
  exact toDigitsCore_ascii (n + 1) n [] (by simp) c hmem

theorem formatRange_ascii (s e : Nat) :
    asciiString (formatRangeUnified s e) := by
  unfold formatRangeUnified
  dsimp only
  split
  · exact natRepr_ascii _
  · exact asciiString_append _ _
      (asciiString_append _ _ (natRepr_ascii _) (by decide))
      (natRepr_ascii _)

theorem pySlice_subset {α : Type} (l : List α) (i j : Nat) :
    ∀ x ∈ pySlice l i j, x ∈ l := by
  intro x hx
  unfold pySlice at hx
  exact List.drop_subset i l (List.take_subset _ _ hx)

theorem opcodeLines_ascii (a b : List String)
    (ha : ∀ s ∈ a, asciiString s) (hb : ∀ s ∈ b, asciiString s)
    (op : Opcode) : ∀ s ∈ opcodeLines a b op, asciiString s := by
  obtain ⟨tag, i1, i2, j1, j2⟩ := op
  have hmap : ∀ (pre : String) (l : List String), asciiString pre →
      (∀ s ∈ l, asciiString s) →
      ∀ s ∈ l.map (fun line => pre ++ line), asciiString s := by
    intro pre l hpre hl s hs
    rw [List.mem_map] at hs
    obtain ⟨line, hline, rfl⟩ := hs
    exact asciiString_append _ _ hpre (hl line hline)
  have hsa : ∀ i j : Nat, ∀ s ∈ pySlice a i j, asciiString s :=
    fun i j s hs => ha s (pySlice_subset a i j s hs)
  have hsb : ∀ i j : Nat, ∀ s ∈ pySlice b i j, asciiString s :=
    fun i j s hs => hb s (pySlice_subset b i j s hs)
  cases tag with
  | equal => exact hmap " " _ (by decide) (hsa i1 i2)
  | replace =>
    intro s hs
    rcases List.mem_append.mp hs with hs | hs
    · exact hmap "-" _ (by decide) (hsa i1 i2) s hs
    · exact hmap "+" _ (by decide) (hsb j1 j2) s hs
  | delete => exact hmap "-" _ (by decide) (hsa i1 i2)
  | insert => exact hmap "+" _ (by decide) (hsb j1 j2)

theorem groupBody_ascii (a b : List String)
    (ha : ∀ s ∈ a, asciiString s) (hb : ∀ s ∈ b, asciiString s)
    (g : List Opcode) :
    ∀ s ∈ g.foldr (fun op acc => opcodeLines a b op ++ acc) [],
      asciiString s := by
  induction g with
  | nil => intro s hs; cases hs
  | cons op g ih =>
    intro s hs
    rw [List.foldr_cons] at hs
    rcases List.mem_append.mp hs with hs | hs
    · exact opcodeLines_ascii a b ha hb op s hs
    · exact ih s hs

theorem groupLines_ascii (a b : List String)
    (ha : ∀ s ∈ a, asciiString s) (hb : ∀ s ∈ b, asciiString s)
    (g : List Opcode) : ∀ s ∈ groupLines a b "\n" g, asciiString s := by
  intro s hs
  unfold groupLines at hs
  rcases List.mem_cons.mp hs with rfl | hs
  · refine asciiString_append _ _ ?_ (by decide)
    refine asciiString_append _ _ ?_ (by decide)
    refine asciiString_append _ _ ?_ (formatRange_ascii _ _)
    refine asciiString_append _ _ ?_ (by decide)
    exact asciiString_append _ _ (by decide) (formatRange_ascii _ _)
  · exact groupBody_ascii a b ha hb g s hs

theorem unifiedDiff_ascii (la lb : List String) (n : Nat)
    (ha : ∀ s ∈ la, asciiString s) (hb : ∀ s ∈ lb, asciiString s) :
    ∀ s ∈ unifiedDiff la lb "a" "b" "" "" n "\n", asciiString s := by
  intro s hs
  unfold unifiedDiff at hs
  rcases hgo : getGroupedOpcodes la lb n with _ | ⟨g, gs⟩
  · rw [hgo] at hs
    cases hs
  · rw [hgo] at hs
    dsimp only at hs
    rcases List.mem_cons.mp hs with rfl | hs
    · decide
    · rcases List.mem_cons.mp hs with rfl | hs
      · decide
      · rw [List.mem_flatten] at hs
        obtain ⟨l, hl, hsl⟩ := hs
        rw [List.mem_map] at hl
        obtain ⟨grp, _, rfl⟩ := hl
        exact groupLines_ascii la lb ha hb grp s hsl

/-- C9 (amended): the content-difference magnitude is the character count
(Python `len`, counting code points) of the minimal zero-context line-level
unified diff between the two mails' normalized bodies; when every body line
is pure ASCII this coincides with the byte length of that diff, as stated
here. -/
theorem C9_amended_diff_char_count (a b : Mail) (la lb : List String)
    (ha : a.body_lines = some la) (hb : b.body_lines = some lb)
    (hla : ∀ s ∈ la, asciiString s) (hlb : ∀ s ∈ lb, asciiString s) :
    DuplicateSet.diff a b = some (specContentMagnitude la lb) := by
  have hascii : ∀ s ∈ unifiedDiff la lb "a" "b" "" "" 0 "\n", asciiString s :=
    unifiedDiff_ascii la lb 0 hla hlb
  have hkey : byteLength (String.join (unifiedDiff la lb "a" "b" "" "" 0 "\n")) =
      (String.join (unifiedDiff la lb "a" "b" "" "" 0 "\n")).length :=
    byteLength_eq_length _ (asciiString_join _ hascii)
  simp [DuplicateSet.diff, ha, hb, specContentMagnitude, hkey]

def mailHello2 : Mail :=
  { source_path := "boxB", mail_id := "2", size := 9,
    body_lines := some ["Hi\n"] }

/-- C9 witness: two ASCII bodies, where the magnitude equals the byte
length of the diff. -/
theorem C9_amended_diff_char_count_witness :
    DuplicateSet.diff mailOne mailHello2 =
      some (specContentMagnitude ["Hello\n"] ["Hi\n"]) :=
  C9_amended_diff_char_count mailOne mailHello2 ["Hello\n"] ["Hi\n"] rfl rfl
    (by decide) (by decide)
